import Mathlib

/-
  Verification of the PKIsensee String library (StrUtil.h / CharUtil.h).

  Model: the narrow instantiation StrUtilT<char> / CharUtilT<char>.
  A code unit is modelled as a Nat holding the byte value 0..255
  (C++ char is signed, but every classification below depends only on the
  byte value; the classic "C" locale classifies bytes 128..255 as neither
  alpha, digit, printable nor control). A string is a List Nat of byte
  values. The helper str converts a Lean string literal of ASCII
  characters to that representation.
-/

def str (s : String) : List Nat :=
  s.toList.map Char.toNat

namespace CharUtil

/-- IsDigit: std::isdigit under the classic locale, true for bytes 48..57. -/
def isDigit (c : Nat) : Bool :=
  48 ≤ c && c ≤ 57

/-- IsNumeric from CharUtil.h: IsDigit(c) or c is the dot character 46. -/
def isNumeric (c : Nat) : Bool :=
  isDigit c || c == 46

/-- IsAlpha: std::isalpha under the classic locale, letters A-Z a-z. -/
def isAlpha (c : Nat) : Bool :=
  (65 ≤ c && c ≤ 90) || (97 ≤ c && c ≤ 122)

/-- IsAlphaNum: std::isalnum under the classic locale. -/
def isAlphaNum (c : Nat) : Bool :=
  isDigit c || isAlpha c

/-- IsPrintable: std::isprint under the classic locale, bytes 32..126. -/
def isPrintable (c : Nat) : Bool :=
  32 ≤ c && c ≤ 126

/-- IsControlChar: std::iscntrl under the classic locale, bytes 0..31 and 127. -/
def isControlChar (c : Nat) : Bool :=
  c < 32 || c == 127

/-- IsExtendedAscii from CharUtil.h: c < 0 or c > 0x7F; on the byte model the
negative branch corresponds to byte values above 127, so both branches
collapse to 127 < c. -/
def isExtendedAscii (c : Nat) : Bool :=
  127 < c

/-- ToUpper: std::toupper under the classic locale, maps bytes 97..122 down by
32 and leaves every other byte unchanged. -/
def toUpper (c : Nat) : Nat :=
  if 97 ≤ c && c ≤ 122 then c - 32 else c

/-- ToLower: std::tolower under the classic locale, maps bytes 65..90 up by 32
and leaves every other byte unchanged. -/
def toLower (c : Nat) : Nat :=
  if 65 ≤ c && c ≤ 90 then c + 32 else c

/-- kBadFileChars from CharUtil.h: (special, replacement) pairs
colon to hyphen, double quote (34) to single quote (39), < to paren,
> to paren, pipe to dot, forward slash to backslash. -/
def kBadFileChars : List (Nat × Nat) :=
  [(58, 45), (34, 39), (60, 40), (62, 41), (124, 46), (47, 92)]

/-- kWildcardChars from CharUtil.h: star (42) to plus (43),
question mark (63) to space (32). -/
def kWildcardChars : List (Nat × Nat) :=
  [(42, 43), (63, 32)]

inductive AllowWildcards where
  | No
  | Yes
deriving DecidableEq

inductive ConvertWildcards where
  | No
  | Yes
deriving DecidableEq

/-- IsWildcardFileChar: any_of over kWildcardChars comparing the symbol. -/
def isWildcardFileChar (c : Nat) : Bool :=
  kWildcardChars.any (fun i => c == i.1)

/-- IsGoodFileCharEx: not a control char, not a bad file char, and (when
wildcards are disallowed) not a wildcard char. -/
def isGoodFileCharEx (c : Nat) (allowWildcards : AllowWildcards) : Bool :=
  if isControlChar c then false
  else if kBadFileChars.any (fun i => c == i.1) then false
  else if allowWildcards == AllowWildcards.No && isWildcardFileChar c then false
  else true

/-- IsGoodFileCharWildcardsOK = IsGoodFileCharEx with wildcards allowed. -/
def isGoodFileCharWildcardsOK (c : Nat) : Bool :=
  isGoodFileCharEx c AllowWildcards.Yes

/-- IsGoodFileChar = IsGoodFileCharEx with wildcards disallowed. -/
def isGoodFileChar (c : Nat) : Bool :=
  isGoodFileCharEx c AllowWildcards.No

/-- ToGoodFileCharEx: control chars become 33 (bang); bad file chars become
their table replacement; when converting wildcards, wildcard chars become
their table replacement; otherwise the char is unchanged. -/
def toGoodFileCharEx (c : Nat) (convertWildcards : ConvertWildcards) : Nat :=
  if isControlChar c then 33
  else
    match kBadFileChars.find? (fun i => c == i.1) with
    | some badChar => badChar.2
    | none =>
      match convertWildcards with
      | ConvertWildcards.Yes =>
        match kWildcardChars.find? (fun i => c == i.1) with
        | some wildcard => wildcard.2
        | none => c
      | ConvertWildcards.No => c

/-- ToGoodFileCharConvertWildcards = ToGoodFileCharEx converting wildcards. -/
def toGoodFileCharConvertWildcards (c : Nat) : Nat :=
  toGoodFileCharEx c ConvertWildcards.Yes

/-- ToGoodFileChar = ToGoodFileCharEx not converting wildcards. -/
def toGoodFileChar (c : Nat) : Nat :=
  toGoodFileCharEx c ConvertWildcards.No

end CharUtil

namespace StrUtil

/-- kXmlReplace from StrUtil.h, in source order: ampersand (38), less-than
(60), greater-than (62), double quote (34), single quote (39), each with its
escape text. -/
def kXmlReplace : List (Nat × List Nat) :=
  [(38, str "&amp;"), (60, str "&lt;"), (62, str "&gt;"),
   (34, str "&quot;"), (39, str "&apos;")]

/-- One step of the ToXmlSafe inner while loop, scanning the not yet searched
suffix of the string. When the scanned char equals the symbol, it is replaced
by the escape code and the search resumes one position later, i.e. after the
first char of the code; fuel bounds the iteration count (the source loop
terminates because no escape text contains its own symbol past position 0). -/
def xmlPassAux (sym : Nat) (code : List Nat) : Nat → List Nat → List Nat
  | _, [] => []
  | 0, s => s
  | fuel + 1, c :: rest =>
    if c == sym then
      match code with
      | d :: ds => d :: xmlPassAux sym code fuel (ds ++ rest)
      | [] =>
        match rest with
        | [] => []
        | r :: rs => r :: xmlPassAux sym code fuel rs
    else c :: xmlPassAux sym code fuel rest

/-- One full find/replace pass of ToXmlSafe for a single table entry. -/
def xmlPass (sym : Nat) (code : List Nat) (s : List Nat) : List Nat :=
  xmlPassAux sym code ((s.length + 1) * (code.length + 1)) s

/-- ToXmlSafe from StrUtil.h: one pass per kXmlReplace entry, in table order. -/
def toXmlSafe (s : List Nat) : List Nat :=
  kXmlReplace.foldl (fun acc e => xmlPass e.1 e.2 acc) s

/-- GetXmlSafe: non-mutating form of ToXmlSafe. -/
def getXmlSafe (s : List Nat) : List Nat :=
  toXmlSafe s

/-- find_first_not_of: index of the first char not in the set, none if all
chars are in the set (npos). -/
def find_first_not_of (s trimCharset : List Nat) : Option Nat :=
  match s with
  | [] => none
  | c :: rest =>
    if trimCharset.contains c then (find_first_not_of rest trimCharset).map (· + 1)
    else some 0

/-- find_last_not_of: index of the last char not in the set, none if all
chars are in the set (npos). -/
def find_last_not_of (s trimCharset : List Nat) : Option Nat :=
  match s with
  | [] => none
  | c :: rest =>
    match find_last_not_of rest trimCharset with
    | some i => some (i + 1)
    | none => if trimCharset.contains c then none else some 0

/-- ToTrimmedLeading from StrUtil.h: if every char is in the set the string is
cleared; otherwise assign(str, firstNot, size - firstNot + 1), whose count is
clamped by assign to the available length. -/
def toTrimmedLeading (s trimCharset : List Nat) : List Nat :=
  match find_first_not_of s trimCharset with
  | none => []
  | some firstNot => (s.drop firstNot).take (s.length - firstNot + 1)

/-- GetTrimmedLeading: non-mutating form of ToTrimmedLeading. -/
def getTrimmedLeading (s trimCharset : List Nat) : List Nat :=
  toTrimmedLeading s trimCharset

/-- ToTrimmedTrailing from StrUtil.h: resize to 0 when every char is in the
set, otherwise resize to lastNot + 1. -/
def toTrimmedTrailing (s trimCharset : List Nat) : List Nat :=
  match find_last_not_of s trimCharset with
  | none => []
  | some lastNot => s.take (lastNot + 1)

/-- GetTrimmedTrailing: non-mutating form of ToTrimmedTrailing. -/
def getTrimmedTrailing (s trimCharset : List Nat) : List Nat :=
  toTrimmedTrailing s trimCharset

/-- npos of std::string on a 64-bit platform. -/
def npos : Nat := 2 ^ 64 - 1

/-- ToTrimmed from StrUtil.h: clear when every char is in the set; otherwise
assign(str, firstNot, lastNot - firstNot + 1). The branch where
find_last_not_of fails after find_first_not_of succeeded is unreachable
(the source asserts it); in a release build lastNot is then npos and the
count wraps modulo 2^64, which the model reproduces verbatim. -/
def toTrimmed (s trimCharset : List Nat) : List Nat :=
  match find_first_not_of s trimCharset with
  | none => []
  | some firstNot =>
    match find_last_not_of s trimCharset with
    | some lastNot => (s.drop firstNot).take (lastNot - firstNot + 1)
    | none => (s.drop firstNot).take ((npos - firstNot + 1) % 2 ^ 64)

/-- GetTrimmed: non-mutating form of ToTrimmed. -/
def getTrimmed (s trimCharset : List Nat) : List Nat :=
  toTrimmed s trimCharset

/-- IsDigit over a whole string: non-empty and all chars digits. -/
def isDigit (s : List Nat) : Bool :=
  !s.isEmpty && s.all CharUtil.isDigit

/-- IsNumeric from StrUtil.h: empty is false; a leading minus (45) is skipped
and the remainder checked char-wise; otherwise the whole string is checked. -/
def isNumeric (s : List Nat) : Bool :=
  match s with
  | [] => false
  | c :: rest =>
    if c == 45 then rest.all CharUtil.isNumeric
    else (c :: rest).all CharUtil.isNumeric

/-- IsAlphaNum over a whole string: non-empty and all chars alphanumeric. -/
def isAlphaNum (s : List Nat) : Bool :=
  !s.isEmpty && s.all CharUtil.isAlphaNum

/-- IsPrintable over a whole string: non-empty and all chars printable. -/
def isPrintable (s : List Nat) : Bool :=
  !s.isEmpty && s.all CharUtil.isPrintable

/-- IsExtendedAscii over a whole string: non-empty and all chars extended. -/
def isExtendedAscii (s : List Nat) : Bool :=
  !s.isEmpty && s.all CharUtil.isExtendedAscii

inductive AllowWildcards where
  | No
  | Yes
deriving DecidableEq

inductive ConvertWildcards where
  | No
  | Yes
  | Remove
deriving DecidableEq

/-- IsGoodFileName from StrUtil.h: all_of with the char predicate selected by
the wildcard mode (no emptiness check, so the empty string passes). -/
def isGoodFileName (s : List Nat) (allowWildcards : AllowWildcards) : Bool :=
  match allowWildcards with
  | AllowWildcards.No => s.all CharUtil.isGoodFileChar
  | AllowWildcards.Yes => s.all CharUtil.isGoodFileCharWildcardsOK

/-- ContainsWildcard from StrUtil.h: any_of IsWildcardFileChar. -/
def containsWildcard (s : List Nat) : Bool :=
  s.any CharUtil.isWildcardFileChar

/-- ToGoodFileName from StrUtil.h: No and Yes transform each char in place;
Remove transforms via ToGoodFileChar and then applies the remove_if / erase
idiom, which keeps exactly the non-wildcard chars in order. -/
def toGoodFileName (s : List Nat) (convertWildcards : ConvertWildcards) : List Nat :=
  match convertWildcards with
  | ConvertWildcards.No => s.map CharUtil.toGoodFileChar
  | ConvertWildcards.Yes => s.map CharUtil.toGoodFileCharConvertWildcards
  | ConvertWildcards.Remove =>
    (s.map CharUtil.toGoodFileChar).filter (fun c => !CharUtil.isWildcardFileChar c)

/-- GetGoodFileName: non-mutating form of ToGoodFileName. -/
def getGoodFileName (s : List Nat) (convertWildcards : ConvertWildcards) : List Nat :=
  toGoodFileName s convertWildcards

/-- ToUpper over a whole string: transform each char by CharUtil ToUpper. -/
def toUpper (s : List Nat) : List Nat :=
  s.map CharUtil.toUpper

/-- ToLower over a whole string: transform each char by CharUtil ToLower. -/
def toLower (s : List Nat) : List Nat :=
  s.map CharUtil.toLower

/-- GetUpper: non-mutating form of ToUpper. -/
def getUpper (s : List Nat) : List Nat :=
  toUpper s

/-- GetLower: non-mutating form of ToLower. -/
def getLower (s : List Nat) : List Nat :=
  toLower s

/-- Decimal digits of a Nat as ASCII bytes, with explicit structural fuel
(the first argument exceeds the number of divisions by ten). -/
def digitsAux : Nat → Nat → List Nat
  | 0, n => [48 + n % 10]
  | fuel + 1, n => if n < 10 then [48 + n] else digitsAux fuel (n / 10) ++ [48 + n % 10]

/-- Unpadded decimal rendering of a Nat, as produced by a plain format spec. -/
def natDigits (n : Nat) : List Nat :=
  digitsAux n n

/-- Zero-padded two-digit field as produced by the chrono format flags. -/
def pad2 (n : Nat) : List Nat :=
  if n < 10 then 48 :: natDigits n else natDigits n

/-- Rendering of the format string with hour, minute and second fields applied
to a seconds duration: the hours field is the hh_mm_ss hour count (not reduced
modulo 24), minutes and seconds are the usual remainders. -/
def fmtHhMmSs (sec : Nat) : List Nat :=
  pad2 (sec / 3600) ++ str "h:" ++ pad2 (sec / 60 % 60) ++ str "m:" ++ pad2 (sec % 60) ++ str "s"

/-- Rendering of the format string with only minute and second fields. -/
def fmtMmSs (sec : Nat) : List Nat :=
  pad2 (sec / 60 % 60) ++ str "m:" ++ pad2 (sec % 60) ++ str "s"

/-- GetDurationStr from StrUtil.h. Days are included only when the whole-day
count reaches minDays, in which case the day seconds are subtracted before
formatting; otherwise the seconds are formatted as they are, with the hour
field dropped when the whole-hour count is zero. -/
def getDurationStr (totalSeconds : Nat) (minDays : Nat := 3) : List Nat :=
  let kSecondsPerHour := 60 * 60
  let kHoursPerDay := 24
  let kSecondsPerDay := kSecondsPerHour * kHoursPerDay
  let totalHours := totalSeconds / kSecondsPerHour
  let totalDays := totalHours / kHoursPerDay
  if totalDays ≥ minDays then
    natDigits totalDays ++ str "d:" ++ fmtHhMmSs (totalSeconds - totalDays * kSecondsPerDay)
  else if totalHours == 0 then fmtMmSs totalSeconds
  else fmtHhMmSs totalSeconds

end StrUtil

/-- StrListT from StrUtil.h: a vector of strings owned by value. -/
structure StrListT where
  list_ : List (List Nat)
deriving DecidableEq

/-- size(): size of the underlying vector. -/
def StrListT.size (l : StrListT) : Nat :=
  l.list_.length

/-- push_back: append one string at the end. -/
def StrListT.push_back (l : StrListT) (s : List Nat) : StrListT :=
  ⟨l.list_ ++ [s]⟩

/-- The element-wise comparison loop of operator==, which walks both lists in
lockstep and returns false at the first mismatching pair; it is entered only
when the sizes already match, so the uneven branches (dead there) return true
as the loop guard i != lhs.end() would. -/
def eqListLoop : List (List Nat) → List (List Nat) → Bool
  | [], _ => true
  | _ :: _, [] => true
  | a :: as, b :: bs => a == b && eqListLoop as bs

/-- operator== on StrListT: false when the sizes differ, otherwise the
element-wise loop. -/
def strListEq (lhs rhs : StrListT) : Bool :=
  if lhs.size ≠ rhs.size then false else eqListLoop lhs.list_ rhs.list_

namespace StrUtil

theorem length_dropWhile_le (p : Nat → Bool) (l : List Nat) :
    (l.dropWhile p).length ≤ l.length := by
  induction l with
  | nil => simp
  | cons c rest ih =>
    rw [List.dropWhile_cons]
    by_cases h : p c = true
    · simp only [h, if_true]
      exact Nat.le_succ_of_le ih
    · simp [h]

theorem dropWhile_dropWhile_same (p : Nat → Bool) (l : List Nat) :
    (l.dropWhile p).dropWhile p = l.dropWhile p := by
  induction l with
  | nil => rfl
  | cons c rest ih =>
    rw [List.dropWhile_cons]
    by_cases h : p c = true
    · simpa [h] using ih
    · simp [List.dropWhile_cons, h]

theorem dropWhile_cons_self (p : Nat → Bool) (c : Nat) (l : List Nat)
    (h : (c :: l).dropWhile p = c :: l) : p c = false := by
  by_cases hc : p c = true
  · rw [List.dropWhile_cons, if_pos hc] at h
    have hlen := length_dropWhile_le p l
    rw [h] at hlen
    simp at hlen
  · simpa using hc

theorem dropWhile_append_all (p : Nat → Bool) (xs ys : List Nat)
    (h : ∀ x ∈ xs, p x = true) : (xs ++ ys).dropWhile p = ys.dropWhile p := by
  induction xs with
  | nil => rfl
  | cons c rest ih =>
    rw [List.cons_append, List.dropWhile_cons, if_pos (h c (List.mem_cons_self c rest))]
    exact ih (fun x hx => h x (List.mem_cons_of_mem c hx))

theorem dropWhile_append_ne_nil (p : Nat → Bool) (xs ys : List Nat)
    (h : xs.dropWhile p ≠ []) : (xs ++ ys).dropWhile p = xs.dropWhile p ++ ys := by
  induction xs with
  | nil => simp at h
  | cons c rest ih =>
    rw [List.cons_append, List.dropWhile_cons]
    by_cases hc : p c = true
    · rw [List.dropWhile_cons, if_pos hc] at h
      rw [if_pos hc, ih h, List.dropWhile_cons, if_pos hc]
    · rw [if_neg hc, List.dropWhile_cons, if_neg hc, List.cons_append]

theorem ffno_eq_none_iff (s T : List Nat) :
    find_first_not_of s T = none ↔ ∀ c ∈ s, c ∈ T := by
  induction s with
  | nil => simp [find_first_not_of]
  | cons c rest ih =>
    rw [find_first_not_of]
    by_cases h : c ∈ T
    · simp [h, Option.map_eq_none', ih]
    · simp [h]

theorem flno_eq_none_iff (s T : List Nat) :
    find_last_not_of s T = none ↔ ∀ c ∈ s, c ∈ T := by
  induction s with
  | nil => simp [find_last_not_of]
  | cons c rest ih =>
    rw [find_last_not_of]
    cases hr : find_last_not_of rest T with
    | some i =>
      have hrest : ¬ ∀ x ∈ rest, x ∈ T := by
        intro hall
        rw [ih.mpr hall] at hr
        exact absurd hr (by simp)
      constructor
      · intro h
        exact absurd h (by simp)
      · intro h
        exact absurd (fun x hx => h x (List.mem_cons_of_mem c hx)) hrest
    | none =>
      have hall : ∀ x ∈ rest, x ∈ T := ih.mp hr
      by_cases h : c ∈ T
      · constructor
        · intro _ x hx
          rcases List.mem_cons.mp hx with rfl | hx'
          · exact h
          · exact hall x hx'
        · intro _
          simp [h]
      · constructor
        · intro hnone
          simp [h] at hnone
        · intro hs
          exact absurd (hs c (List.mem_cons_self c rest)) h

theorem ffno_some_flno_some (s T : List Nat) (f : Nat)
    (h : find_first_not_of s T = some f) : ∃ l, find_last_not_of s T = some l := by
  cases hl : find_last_not_of s T with
  | some l => exact ⟨l, rfl⟩
  | none =>
    have : find_first_not_of s T = none := (ffno_eq_none_iff s T).mpr ((flno_eq_none_iff s T).mp hl)
    rw [this] at h
    exact absurd h (by simp)

theorem toTrimmedLeading_eq_dropWhile (s T : List Nat) :
    toTrimmedLeading s T = s.dropWhile (fun c => T.contains c) := by
  induction s with
  | nil => rfl
  | cons c rest ih =>
    by_cases h : c ∈ T
    · have hdw : (c :: rest).dropWhile (fun c => T.contains c) =
          rest.dropWhile (fun c => T.contains c) := by
        simp [List.dropWhile_cons, h]
      have hff : find_first_not_of (c :: rest) T =
          (find_first_not_of rest T).map (· + 1) := by
        rw [find_first_not_of]
        simp [h]
      cases hr : find_first_not_of rest T with
      | none =>
        rw [hdw]
        simp only [toTrimmedLeading, hff, hr, Option.map_none']
        simpa [toTrimmedLeading, hr] using ih
      | some f =>
        rw [hdw, ← ih]
        simp only [toTrimmedLeading, hff, hr, Option.map_some', List.drop_succ_cons,
          List.length_cons]
        have harith : rest.length + 1 - (f + 1) + 1 = rest.length - f + 1 := by omega
        rw [harith]
    · have hff : find_first_not_of (c :: rest) T = some 0 := by
        rw [find_first_not_of]
        simp [h]
      simp only [toTrimmedLeading, hff, List.drop_zero]
      rw [List.dropWhile_cons, if_neg (by simpa using h)]
      exact List.take_of_length_le (by omega)

theorem toTrimmedTrailing_eq_dropWhile (s T : List Nat) :
    toTrimmedTrailing s T = (s.reverse.dropWhile (fun c => T.contains c)).reverse := by
  induction s with
  | nil => rfl
  | cons c rest ih =>
    cases hr : find_last_not_of rest T with
    | some i =>
      have hfl : find_last_not_of (c :: rest) T = some (i + 1) := by
        rw [find_last_not_of]
        simp [hr]
      have hne : rest.reverse.dropWhile (fun c => T.contains c) ≠ [] := by
        intro hnil
        have hall : ∀ x ∈ rest, x ∈ T := by
          intro x hx
          simpa using List.dropWhile_eq_nil_iff.mp hnil x (List.mem_reverse.mpr hx)
        rw [(flno_eq_none_iff rest T).mpr hall] at hr
        exact absurd hr (by simp)
      simp only [toTrimmedTrailing, hfl, List.reverse_cons]
      rw [dropWhile_append_ne_nil _ _ _ hne, List.reverse_append, List.take_succ_cons]
      have htk : rest.take (i + 1) = toTrimmedTrailing rest T := by
        simp [toTrimmedTrailing, hr]
      rw [htk, ih]
      simp
    | none =>
      have hall : ∀ x ∈ rest, x ∈ T := (flno_eq_none_iff rest T).mp hr
      have hallrev : ∀ x ∈ rest.reverse, (fun c => T.contains c) x = true := by
        intro x hx
        simpa using hall x (List.mem_reverse.mp hx)
      by_cases h : c ∈ T
      · have hfl : find_last_not_of (c :: rest) T = none := by
          rw [find_last_not_of]
          simp [hr, h]
        simp only [toTrimmedTrailing, hfl, List.reverse_cons]
        rw [dropWhile_append_all _ _ _ hallrev]
        simp [h]
      · have hfl : find_last_not_of (c :: rest) T = some 0 := by
          rw [find_last_not_of]
          simp [hr, h]
        simp only [toTrimmedTrailing, hfl, List.reverse_cons]
        rw [dropWhile_append_all _ _ _ hallrev]
        simp [h, List.take_succ_cons]

theorem toTrimmed_eq_comp (s T : List Nat) :
    toTrimmed s T = toTrimmedTrailing (toTrimmedLeading s T) T := by
  induction s with
  | nil => rfl
  | cons c rest ih =>
    by_cases h : c ∈ T
    · have hff : find_first_not_of (c :: rest) T =
          (find_first_not_of rest T).map (· + 1) := by
        rw [find_first_not_of]
        simp [h]
      cases hr : find_first_not_of rest T with
      | none =>
        simp only [toTrimmed, toTrimmedLeading, hff, hr, Option.map_none']
        rfl
      | some f =>
        obtain ⟨l, hl⟩ := ffno_some_flno_some rest T f hr
        have hfl : find_last_not_of (c :: rest) T = some (l + 1) := by
          rw [find_last_not_of]
          simp [hl]
        have hLHS : toTrimmed (c :: rest) T = toTrimmed rest T := by
          simp only [toTrimmed, hff, hr, Option.map_some', hfl, hl, List.drop_succ_cons]
          have harith : l + 1 - (f + 1) + 1 = l - f + 1 := by omega
          rw [harith]
        have hRHS : toTrimmedLeading (c :: rest) T = toTrimmedLeading rest T := by
          simp only [toTrimmedLeading, hff, hr, Option.map_some', List.drop_succ_cons,
            List.length_cons]
          have harith : rest.length + 1 - (f + 1) + 1 = rest.length - f + 1 := by omega
          rw [harith]
        rw [hLHS, hRHS, ih]
    · have hff : find_first_not_of (c :: rest) T = some 0 := by
        rw [find_first_not_of]
        simp [h]
      have hL : toTrimmedLeading (c :: rest) T = c :: rest := by
        simp only [toTrimmedLeading, hff, List.drop_zero]
        exact List.take_of_length_le (by omega)
      rw [hL]
      cases hfl : find_last_not_of (c :: rest) T with
      | none =>
        exact absurd ((flno_eq_none_iff (c :: rest) T).mp hfl c (List.mem_cons_self c rest)) h
      | some L =>
        simp only [toTrimmed, hff, hfl, toTrimmedTrailing, List.drop_zero]
        have harith : L - 0 + 1 = L + 1 := by omega
        rw [harith]

theorem getTrimmed_eq_dropWhile (s T : List Nat) :
    getTrimmed s T =
      ((s.dropWhile (fun c => T.contains c)).reverse.dropWhile
        (fun c => T.contains c)).reverse := by
  rw [getTrimmed, toTrimmed_eq_comp, toTrimmedLeading_eq_dropWhile]
  have := toTrimmedTrailing_eq_dropWhile (s.dropWhile (fun c => T.contains c)) T
  rw [this]

theorem dropWhile_of_trimmed (p : Nat → Bool) (s : List Nat) :
    (((s.dropWhile p).reverse.dropWhile p).reverse).dropWhile p =
      ((s.dropWhile p).reverse.dropWhile p).reverse := by
  have hu : (s.dropWhile p).dropWhile p = s.dropWhile p := dropWhile_dropWhile_same p s
  have hsplit : s.dropWhile p =
      ((s.dropWhile p).reverse.dropWhile p).reverse ++
        ((s.dropWhile p).reverse.takeWhile p).reverse := by
    conv_lhs => rw [← List.reverse_reverse (s.dropWhile p)]
    rw [← List.takeWhile_append_dropWhile p (s.dropWhile p).reverse, List.reverse_append]
    simp [List.takeWhile_append_dropWhile]
  cases hrc : ((s.dropWhile p).reverse.dropWhile p).reverse with
  | nil => simp
  | cons a r =>
    have hcons : s.dropWhile p =
        a :: (r ++ ((s.dropWhile p).reverse.takeWhile p).reverse) := by
      conv_lhs => rw [hsplit, hrc]
      rw [List.cons_append]
    have hpa : p a = false := by
      apply dropWhile_cons_self p a (r ++ ((s.dropWhile p).reverse.takeWhile p).reverse)
      rw [← hcons]
      exact hu
    rw [List.dropWhile_cons, hpa]
    simp

end StrUtil

theorem toUpper_toUpper (c : Nat) :
    CharUtil.toUpper (CharUtil.toUpper c) = CharUtil.toUpper c := by
  unfold CharUtil.toUpper
  by_cases h : (97 ≤ c && c ≤ 122) = true
  · rw [if_pos h]
    have h2 : ¬((97 ≤ c - 32 && c - 32 ≤ 122) = true) := by
      simp only [Bool.and_eq_true, decide_eq_true_eq] at h ⊢
      omega
    rw [if_neg h2]
  · rw [if_neg h, if_neg h]

theorem toLower_toLower (c : Nat) :
    CharUtil.toLower (CharUtil.toLower c) = CharUtil.toLower c := by
  unfold CharUtil.toLower
  by_cases h : (65 ≤ c && c ≤ 90) = true
  · rw [if_pos h]
    have h2 : ¬((65 ≤ c + 32 && c + 32 ≤ 90) = true) := by
      simp only [Bool.and_eq_true, decide_eq_true_eq] at h ⊢
      omega
    rw [if_neg h2]
  · rw [if_neg h, if_neg h]

theorem eqListLoop_iff (as bs : List (List Nat)) (h : as.length = bs.length) :
    eqListLoop as bs = true ↔ as = bs := by
  induction as generalizing bs with
  | nil =>
    cases bs with
    | nil => simp [eqListLoop]
    | cons b bs => simp at h
  | cons a as ih =>
    cases bs with
    | nil => simp at h
    | cons b bs =>
      simp only [eqListLoop, Bool.and_eq_true, beq_iff_eq, List.cons.injEq]
      rw [ih bs (by simpa using h)]

theorem strListEq_iff (l r : StrListT) :
    strListEq l r = true ↔ l.list_ = r.list_ := by
  unfold strListEq
  by_cases h : l.size = r.size
  · rw [if_neg (by simp [h])]
    exact eqListLoop_iff l.list_ r.list_ h
  · rw [if_pos h]
    constructor
    · intro hfalse
      exact absurd hfalse (by simp)
    · intro he
      exact absurd (by rw [StrListT.size, StrListT.size, he]) h

/-- Claim C1 fails on the code: GetDurationStr(90061, 3) does not return
"01h:01m:01s", because in the totalDays < minDays branch the day seconds are
not subtracted and the chrono hours field shows the full hh_mm_ss hour count. -/
theorem claim_C1_counterexample :
    StrUtil.getDurationStr 90061 3 ≠ str "01h:01m:01s" := by decide

/-- Claim C1 (amended): for totalSeconds = 90061 and minDays = 3 the whole-day
count (1) is below minDays (3), so the day field is omitted, and the result is
"25h:01m:01s": the hour field holds the total hour count 25 (not reduced
modulo 24) with minutes and seconds zero-padded to 2 digits. -/
theorem claim_C1_amended :
    StrUtil.getDurationStr 90061 3 = str "25h:01m:01s" ∧
      90061 / (60 * 60) / 24 < 3 := by decide

/-- Claim C2 fails on the code as stated: IsNumeric("-") is true, because
after the leading minus is skipped the remaining range is empty and the
all_of check passes vacuously. -/
theorem claim_C2_counterexample :
    StrUtil.isNumeric (str "-") = true := by decide

/-- Claim C2 (amended): IsNumeric(s) is true iff s is non-empty and, after
skipping a single leading minus, every remaining character is a decimal digit
or a dot; a lone minus therefore passes vacuously, so IsNumeric of "-123.5"
and "-" are true while IsNumeric of "" and "12-3" are false. -/
theorem claim_C2_amended :
    (∀ s : List Nat, StrUtil.isNumeric s = true ↔
      (s ≠ [] ∧ ∀ c ∈ (if s.head? = some 45 then s.tail else s),
        (48 ≤ c ∧ c ≤ 57) ∨ c = 46))
    ∧ StrUtil.isNumeric (str "-123.5") = true
    ∧ StrUtil.isNumeric (str "-") = true
    ∧ StrUtil.isNumeric (str "") = false
    ∧ StrUtil.isNumeric (str "12-3") = false := by
  refine ⟨?_, by decide, by decide, by decide, by decide⟩
  intro s
  cases s with
  | nil => simp [StrUtil.isNumeric]
  | cons c rest =>
    by_cases h : c = 45
    · subst h
      simp [StrUtil.isNumeric, CharUtil.isNumeric, CharUtil.isDigit, List.all_eq_true]
    · simp [StrUtil.isNumeric, CharUtil.isNumeric, CharUtil.isDigit, List.all_eq_true, h]

/-- Claim C3: the XML escape table processes the ampersand entry first, a
single pass on "a & b < c" yields exactly "a &amp; b &lt; c", escaping "&amp;"
again yields "&amp;amp;", and applying GetXmlSafe twice to "&" differs from
applying it once (not idempotent). -/
theorem claim_C3 :
    StrUtil.kXmlReplace.head? = some (38, str "&amp;")
    ∧ StrUtil.getXmlSafe (str "a & b < c") = str "a &amp; b &lt; c"
    ∧ StrUtil.getXmlSafe (str "&amp;") = str "&amp;amp;"
    ∧ StrUtil.getXmlSafe (StrUtil.getXmlSafe (str "&")) ≠
        StrUtil.getXmlSafe (str "&") := by decide

/-- Claim C4: ToGoodFileName with the Remove mode maps every character through
ToGoodFileChar (control characters to bang, bad-table characters to their
replacement, wildcards unchanged) and then deletes every wildcard character,
and GetGoodFileName("my*file?.txt", Remove) is exactly "myfile.txt". -/
theorem claim_C4 :
    (∀ s : List Nat, StrUtil.getGoodFileName s StrUtil.ConvertWildcards.Remove =
      (s.map CharUtil.toGoodFileChar).filter (fun c => !CharUtil.isWildcardFileChar c))
    ∧ (∀ c : Nat, CharUtil.isControlChar c = true → CharUtil.toGoodFileChar c = 33)
    ∧ (∀ c r : Nat, (c, r) ∈ CharUtil.kBadFileChars → CharUtil.toGoodFileChar c = r)
    ∧ (∀ c : Nat, CharUtil.isWildcardFileChar c = true → CharUtil.toGoodFileChar c = c)
    ∧ StrUtil.getGoodFileName (str "my*file?.txt") StrUtil.ConvertWildcards.Remove =
        str "myfile.txt" := by
  refine ⟨fun s => rfl, ?_, ?_, ?_, by decide⟩
  · intro c hc
    simp [CharUtil.toGoodFileChar, CharUtil.toGoodFileCharEx, hc]
  · intro c r hmem
    simp only [CharUtil.kBadFileChars, List.mem_cons, List.not_mem_nil, or_false,
      Prod.mk.injEq] at hmem
    rcases hmem with ⟨rfl, rfl⟩ | ⟨rfl, rfl⟩ | ⟨rfl, rfl⟩ | ⟨rfl, rfl⟩ |
      ⟨rfl, rfl⟩ | ⟨rfl, rfl⟩ <;> decide
  · intro c hw
    simp only [CharUtil.isWildcardFileChar, CharUtil.kWildcardChars, List.any_cons,
      List.any_nil, Bool.or_false, Bool.or_eq_true, beq_iff_eq] at hw
    rcases hw with rfl | rfl <;> decide

/-- Claim C4 witness: the hypothesis-bearing parts at concrete inputs — the
control character 7 maps to bang, the bad char colon maps to hyphen, the
wildcard star is unchanged. -/
theorem claim_C4_witness :
    CharUtil.toGoodFileChar 7 = 33 ∧ CharUtil.toGoodFileChar 58 = 45 ∧
      CharUtil.toGoodFileChar 42 = 42 :=
  ⟨claim_C4.2.1 7 (by decide), claim_C4.2.2.1 58 45 (by decide),
    claim_C4.2.2.2.1 42 (by decide)⟩

/-- Claim C5: GetTrimmedLeading removes exactly the maximal leading run of
characters in the trim set: it equals dropWhile of set membership, the
result length plus the removed-run length is the original length, and an
all-trimmable string trims to empty. -/
theorem claim_C5 : ∀ s T : List Nat,
    StrUtil.getTrimmedLeading s T = s.dropWhile (fun c => T.contains c)
    ∧ (StrUtil.getTrimmedLeading s T).length +
        (s.takeWhile (fun c => T.contains c)).length = s.length
    ∧ ((∀ c ∈ s, c ∈ T) → StrUtil.getTrimmedLeading s T = []) := by
  intro s T
  have h1 : StrUtil.getTrimmedLeading s T = s.dropWhile (fun c => T.contains c) :=
    StrUtil.toTrimmedLeading_eq_dropWhile s T
  refine ⟨h1, ?_, ?_⟩
  · rw [h1, Nat.add_comm, ← List.length_append,
      List.takeWhile_append_dropWhile (fun c => T.contains c) s]
  · intro hall
    simp [StrUtil.getTrimmedLeading, StrUtil.toTrimmedLeading,
      (StrUtil.ffno_eq_none_iff s T).mpr hall]

/-- Claim C5 witness: an all-trimmable string trims to empty at a concrete
input. -/
theorem claim_C5_witness :
    StrUtil.getTrimmedLeading (str "aaa") (str "a") = [] :=
  (claim_C5 (str "aaa") (str "a")).2.2 (by decide)

/-- Claim C6: GetTrimmed is idempotent: trimming an already-trimmed string
with the same trim set yields the same string. -/
theorem claim_C6 : ∀ s T : List Nat,
    StrUtil.getTrimmed (StrUtil.getTrimmed s T) T = StrUtil.getTrimmed s T := by
  intro s T
  rw [StrUtil.getTrimmed_eq_dropWhile (StrUtil.getTrimmed s T) T,
    StrUtil.getTrimmed_eq_dropWhile s T, StrUtil.dropWhile_of_trimmed,
    List.reverse_reverse]
  exact StrUtil.dropWhile_of_trimmed (fun c => T.contains c) s

/-- Claim C6 witness: idempotence at a concrete input. -/
theorem claim_C6_witness :
    StrUtil.getTrimmed (StrUtil.getTrimmed (str " ab ") (str " ")) (str " ") =
      StrUtil.getTrimmed (str " ab ") (str " ") :=
  claim_C6 (str " ab ") (str " ")

/-- Claim C7: whole-string case conversion is idempotent: GetUpper twice
equals GetUpper once, and likewise for GetLower. -/
theorem claim_C7 : ∀ s : List Nat,
    StrUtil.getUpper (StrUtil.getUpper s) = StrUtil.getUpper s
    ∧ StrUtil.getLower (StrUtil.getLower s) = StrUtil.getLower s := by
  intro s
  constructor
  · simp only [StrUtil.getUpper, StrUtil.toUpper, List.map_map]
    exact List.map_congr_left (fun a _ => by
      simpa [Function.comp] using toUpper_toUpper a)
  · simp only [StrUtil.getLower, StrUtil.toLower, List.map_map]
    exact List.map_congr_left (fun a _ => by
      simpa [Function.comp] using toLower_toLower a)

/-- Claim C7 witness: case-conversion idempotence at a concrete input. -/
theorem claim_C7_witness :
    StrUtil.getUpper (StrUtil.getUpper (str "aB")) = StrUtil.getUpper (str "aB")
    ∧ StrUtil.getLower (StrUtil.getLower (str "aB")) = StrUtil.getLower (str "aB") :=
  claim_C7 (str "aB")

/-- Claim C8: StrListT operator== is true iff the lists have the same number
of elements and corresponding elements are equal in order; a list equals
itself (same elements, same order), while reordering unequal elements makes
the lists compare unequal. -/
theorem claim_C8 :
    (∀ l r : StrListT, strListEq l r = true ↔
      (l.size = r.size ∧ List.Forall₂ (fun a b => a = b) l.list_ r.list_))
    ∧ (∀ l : StrListT, strListEq l l = true)
    ∧ strListEq ⟨[str "ab", str "cd"]⟩ ⟨[str "ab", str "cd"]⟩ = true
    ∧ strListEq ⟨[str "ab", str "cd"]⟩ ⟨[str "cd", str "ab"]⟩ = false := by
  refine ⟨?_, ?_, by decide, by decide⟩
  · intro l r
    rw [strListEq_iff]
    constructor
    · intro he
      rw [List.forall₂_eq_eq_eq]
      exact ⟨by simp [StrListT.size, he], he⟩
    · rintro ⟨hsz, hf⟩
      rw [List.forall₂_eq_eq_eq] at hf
      exact hf
  · intro l
    rw [strListEq_iff]

/-- Claim C9: the assert in ToTrimmed is unreachable: once find_first_not_of
has found a character outside the trim set, find_last_not_of cannot return
npos. Every operation in the embedding is a total function by construction. -/
theorem claim_C9 : ∀ (s T : List Nat) (f : Nat),
    StrUtil.find_first_not_of s T = some f →
      StrUtil.find_last_not_of s T ≠ none := by
  intro s T f h
  obtain ⟨l, hl⟩ := StrUtil.ffno_some_flno_some s T f h
  simp [hl]

/-- Claim C9 witness: the assert-unreachability fact at a concrete input. -/
theorem claim_C9_witness :
    StrUtil.find_last_not_of (str "ab") (str "a") ≠ none :=
  claim_C9 (str "ab") (str "a") 1 (by decide)

/-- Claim C10: on the empty string the filename predicates are vacuously
permissive (IsGoodFileName true in both modes, ContainsWildcard false) while
IsDigit, IsNumeric, IsAlphaNum, IsPrintable and IsExtendedAscii are false. -/
theorem claim_C10 :
    StrUtil.isGoodFileName [] StrUtil.AllowWildcards.No = true
    ∧ StrUtil.isGoodFileName [] StrUtil.AllowWildcards.Yes = true
    ∧ StrUtil.containsWildcard [] = false
    ∧ StrUtil.isDigit [] = false
    ∧ StrUtil.isNumeric [] = false
    ∧ StrUtil.isAlphaNum [] = false
    ∧ StrUtil.isPrintable [] = false
    ∧ StrUtil.isExtendedAscii [] = false := by decide

/-- Claim C2 witness: the characterization instantiated at a concrete input. -/
theorem claim_C2_witness :
    StrUtil.isNumeric (str "1.5") = true ↔
      (str "1.5" ≠ [] ∧ ∀ c ∈ (if (str "1.5").head? = some 45 then (str "1.5").tail
        else str "1.5"), (48 ≤ c ∧ c ≤ 57) ∨ c = 46) :=
  claim_C2_amended.1 (str "1.5")

/-- Claim C8 witness: the equality characterization instantiated at concrete
lists. -/
theorem claim_C8_witness :
    strListEq ⟨[str "x"]⟩ ⟨[str "x"]⟩ = true ↔
      ((⟨[str "x"]⟩ : StrListT).size = (⟨[str "x"]⟩ : StrListT).size ∧
        List.Forall₂ (fun a b => a = b) [str "x"] [str "x"]) :=
  claim_C8.1 ⟨[str "x"]⟩ ⟨[str "x"]⟩
